import Mathlib

/-!
Verification of the daily word-selection and spaced-repetition core of a
vocabulary flashcard application.

The embedding mirrors the JavaScript source:
* `Word`, `Settings`, `LogEntry` mirror the stored records (storage.js docs).
* `buildDailyWords`, `shuffle`, the session operations mirror quiz.js.
* `markCorrect`, `markWrong`, `getWrongWords`, `recordStudy` mirror data.js.

JavaScript specifics kept faithfully:
* `Array.prototype.slice(0, end)` with a possibly negative `end` is `jsTake`
  (a negative end counts from the end of the array, clamped at 0).
* `Array.prototype.sort` with a comparator is a stable sort (ES2019);
  it is embedded as a stable insertion sort `sortStable`.
* `Math.floor(Math.random() * (i + 1))` is an arbitrary choice function
  `rand : Nat → Nat`, reduced mod (i+1) so every value is a legal index;
  theorems quantify over all such functions.
* `findIndex` returning -1 becomes `findIndex` returning `Option Nat`.
* the study log object keyed by date strings becomes a function
  `String → Option LogEntry`.
-/

namespace Vocab

/-- Word record as stored (data.js addWord): identifier, display strings,
category reference, wrong counter, streak counter, creation date. -/
structure Word where
  id : String
  japanese : String
  furigana : String
  korean : String
  categoryId : String
  wrongCount : Nat
  correctStreak : Nat
  createdAt : String
deriving Repr, DecidableEq

/-- Settings fields used by the core (storage.js DEFAULT_SETTINGS). -/
structure Settings where
  dailyGoal : Nat
  graduationStreak : Nat
deriving Repr, DecidableEq

/-- One study-log entry, keyed by date (data.js recordStudy). -/
structure LogEntry where
  count : Nat
  categoryId : String
deriving Repr, DecidableEq

/-- Study log: the JS object keyed by YYYY-MM-DD date strings. -/
def StudyLog : Type := String → Option LogEntry

/-- In-memory session state (quiz.js startSession). -/
structure Session where
  categoryId : String
  words : List Word
  currentIndex : Nat
  results : List (String × Bool)
  isFlipped : Bool
deriving Repr, DecidableEq

/-- Combined mutable state of the data layer plus the quiz session. -/
structure AppState where
  words : List Word
  studyLog : StudyLog
  session : Option Session

/-- Return value of the _next step in quiz.js. -/
structure NextInfo where
  done : Bool
  index : Nat
  total : Nat
deriving Repr, DecidableEq

/-- Result of startSession: ok with the new session, or an error message. -/
inductive StartResult where
  | ok (sess : Session)
  | error (msg : String)
deriving Repr, DecidableEq

/-- Error message of startSession for an empty pool (quiz.js line 39). -/
def emptyPoolMessage : String :=
  "학습할 단어가 없습니다. 단어를 먼저 등록해주세요."

/-- JS slice(0, e): a negative end counts from the end of the array,
clamped at 0; a nonnegative end is an ordinary take. -/
def jsTake (e : Int) (l : List α) : List α :=
  if e < 0 then l.take ((l.length : Int) + e).toNat else l.take e.toNat

/-- Swap of two positions of a list; identity when an index is out of
range (JS destructuring swap on valid indices). -/
def listSwap (l : List α) (i j : Nat) : List α :=
  match l[i]?, l[j]? with
  | some a, some b => (l.set i b).set j a
  | _, _ => l

/-- Fisher-Yates loop of quiz.js shuffle: for i from n-1 down to 1, swap
position i with a chosen position j ≤ i. -/
def fyLoop (rand : Nat → Nat) : Nat → List α → List α
  | 0, l => l
  | i + 1, l => fyLoop rand i (listSwap l (i + 1) (rand (i + 1) % (i + 2)))

/-- quiz.js shuffle: copy the array, then run the Fisher-Yates loop. -/
def shuffle (rand : Nat → Nat) (l : List α) : List α :=
  fyLoop rand (l.length - 1) l

/-- Stable insertion: a is placed before the first element x with
before a x; ties in the sort orders keep the earlier-inserted element
first, matching the stability of the JS comparator sort. -/
def insertSorted (before : α → α → Bool) (a : α) : List α → List α
  | [] => [a]
  | x :: xs => if before a x then a :: x :: xs else x :: insertSorted before a xs

/-- Stable sort by an ordering test (model of ES2019 stable
Array.prototype.sort with a comparator). -/
def sortStable (before : α → α → Bool) : List α → List α
  | [] => []
  | a :: l => insertSorted before a (sortStable before l)

/-- Comparator (a, b) => b.wrongCount - a.wrongCount: descending by
wrongCount, stable on ties. -/
def sortWrongDesc (l : List Word) : List Word :=
  sortStable (fun a b => decide (b.wrongCount ≤ a.wrongCount)) l

/-- Comparator (a, b) => a.createdAt.localeCompare(b.createdAt):
ascending by createdAt, stable on ties. -/
def sortCreatedAsc (l : List Word) : List Word :=
  sortStable (fun a b => decide (a.createdAt ≤ b.createdAt)) l

/-- data.js getWrongWords: words with wrongCount ≥ 1, most-missed first. -/
def getWrongWords (words : List Word) : List Word :=
  sortWrongDesc (words.filter (fun w => decide (1 ≤ w.wrongCount)))

/-- Scope pool of quiz.js buildDailyWords: every word for scope all,
otherwise the category filter (data.js getWordsByCategory). -/
def poolFor (words : List Word) (categoryId : String) : List Word :=
  if categoryId = "all" then words
  else words.filter (fun w => w.categoryId == categoryId)

/-- quiz.js line 84-87: wrong-pool words of the scope, stably sorted by
descending wrongCount, cut by slice(0, dailyGoal - 2) with JS negative
slice-end semantics. -/
def wrongSelected (s : Settings) (pool : List Word) : List Word :=
  jsTake ((s.dailyGoal : Int) - 2)
    (sortWrongDesc (pool.filter (fun w => decide (1 ≤ w.wrongCount))))

/-- quiz.js line 90-93: new words of the scope (wrongCount == 0, id not
among the selected wrong words), stably sorted by ascending createdAt. -/
def newCandidates (s : Settings) (pool : List Word) : List Word :=
  sortCreatedAsc (pool.filter (fun w =>
    (w.wrongCount == 0) && !(((wrongSelected s pool).map (fun v => v.id)).contains w.id)))

/-- quiz.js line 95-98: fill the remaining dailyGoal - |wrongWords| slots
with new candidates, again with JS slice semantics. -/
def newSelected (s : Settings) (pool : List Word) : List Word :=
  jsTake ((s.dailyGoal : Int) - ((wrongSelected s pool).length : Int))
    (newCandidates s pool)

/-- quiz.js buildDailyWords: wrong-note scope shuffles the wrong pool and
truncates to dailyGoal; other scopes take the biased selection and
shuffle it. -/
def buildDailyWords (s : Settings) (rand : Nat → Nat)
    (storeWords : List Word) (categoryId : String) : List Word :=
  if categoryId = "wrong" then
    jsTake (s.dailyGoal : Int) (shuffle rand (getWrongWords storeWords))
  else
    let pool := poolFor storeWords categoryId
    shuffle rand (wrongSelected s pool ++ newSelected s pool)

/-- JS Array.prototype.findIndex, with none for -1. -/
def findIndex (p : α → Bool) : List α → Option Nat
  | [] => none
  | x :: xs => if p x then some 0 else (findIndex p xs).map (fun i => i + 1)

/-- Per-word effect of data.js markCorrect: increment the streak, then
graduate (reset both counters) when the word is in the wrong pool and the
streak has reached the graduation threshold. -/
def applyCorrect (s : Settings) (w : Word) : Word :=
  let w1 : Word := { w with correctStreak := w.correctStreak + 1 }
  if 0 < w1.wrongCount ∧ s.graduationStreak ≤ w1.correctStreak then
    { w1 with wrongCount := 0, correctStreak := 0 }
  else w1

/-- Per-word effect of data.js markWrong: bump wrongCount, clear streak. -/
def applyWrong (w : Word) : Word :=
  { w with wrongCount := w.wrongCount + 1, correctStreak := 0 }

/-- data.js markCorrect: locate the word by id (silent no-op when absent)
and replace it by its updated copy. -/
def markCorrect (s : Settings) (words : List Word) (id : String) : List Word :=
  match findIndex (fun w => w.id == id) words with
  | none => words
  | some i =>
    match words[i]? with
    | none => words
    | some w => words.set i (applyCorrect s w)

/-- data.js markWrong: locate the word by id (silent no-op when absent)
and replace it by its updated copy. -/
def markWrong (words : List Word) (id : String) : List Word :=
  match findIndex (fun w => w.id == id) words with
  | none => words
  | some i =>
    match words[i]? with
    | none => words
    | some w => words.set i (applyWrong w)

/-- data.js recordStudy: merge today's entry — add the count, keep the
previous categoryId when it is truthy (JS prev.categoryId || categoryId). -/
def recordStudy (log : StudyLog) (date : String) (count : Nat)
    (categoryId : String) : StudyLog :=
  let prev := (log date).getD { count := 0, categoryId := categoryId }
  fun k =>
    if k = date then
      some { count := prev.count + count,
             categoryId := if prev.categoryId = "" then categoryId else prev.categoryId }
    else log k

/-- quiz.js startSession: build the daily words; report the empty-pool
error (leaving any prior session untouched) or install a fresh session. -/
def startSession (s : Settings) (rand : Nat → Nat) (categoryId : String)
    (st : AppState) : AppState × StartResult :=
  let words := buildDailyWords s rand st.words categoryId
  if words.length = 0 then
    (st, StartResult.error emptyPoolMessage)
  else
    let sess : Session :=
      { categoryId := categoryId, words := words, currentIndex := 0,
        results := [], isFlipped := false }
    ({ st with session := some sess }, StartResult.ok sess)

/-- quiz.js currentWord: the card at currentIndex, none without a session
or past the end. -/
def currentWord (st : AppState) : Option Word :=
  match st.session with
  | none => none
  | some sess => sess.words[sess.currentIndex]?

/-- quiz.js flipCard: toggle isFlipped; no-op without a session. -/
def flipCard (st : AppState) : AppState × Option Bool :=
  match st.session with
  | none => (st, none)
  | some sess =>
    ({ st with session := some { sess with isFlipped := !sess.isFlipped } },
     some (!sess.isFlipped))

/-- quiz.js _next and _finishSession applied after a result was pushed:
clear the flip, advance the index, and on completion commit the study
log once with count = |results|. -/
def nextStep (today : String) (st : AppState) (sess2 : Session) :
    AppState × Option NextInfo :=
  let done := decide (sess2.words.length ≤ sess2.currentIndex)
  let log2 :=
    if done then recordStudy st.studyLog today sess2.results.length sess2.categoryId
    else st.studyLog
  ({ st with studyLog := log2, session := some sess2 },
   some { done := done, index := sess2.currentIndex, total := sess2.words.length })

/-- quiz.js answerCorrect: guard on session and current card, update the
store via markCorrect, push the result, advance. -/
def answerCorrect (s : Settings) (today : String) (st : AppState) :
    AppState × Option NextInfo :=
  match st.session with
  | none => (st, none)
  | some sess =>
    match currentWord st with
    | none => (st, none)
    | some word =>
      let st1 : AppState := { st with words := markCorrect s st.words word.id }
      let sess2 : Session :=
        { sess with results := sess.results ++ [(word.id, true)],
                    isFlipped := false, currentIndex := sess.currentIndex + 1 }
      nextStep today st1 sess2

/-- quiz.js answerWrong: guard on session and current card, update the
store via markWrong, push the result, advance. -/
def answerWrong (today : String) (st : AppState) :
    AppState × Option NextInfo :=
  match st.session with
  | none => (st, none)
  | some sess =>
    match currentWord st with
    | none => (st, none)
    | some word =>
      let st1 : AppState := { st with words := markWrong st.words word.id }
      let sess2 : Session :=
        { sess with results := sess.results ++ [(word.id, false)],
                    isFlipped := false, currentIndex := sess.currentIndex + 1 }
      nextStep today st1 sess2

/-- Sample word in the wrong pool (two misses), for concrete witnesses. -/
def wA : Word :=
  { id := "a", japanese := "水", furigana := "みず", korean := "물",
    categoryId := "c1", wrongCount := 2, correctStreak := 0,
    createdAt := "2024-03-01" }

/-- Sample word in the wrong pool (one miss), for concrete witnesses. -/
def wB : Word :=
  { id := "b", japanese := "山", furigana := "やま", korean := "산",
    categoryId := "c1", wrongCount := 1, correctStreak := 0,
    createdAt := "2024-03-02" }

/-- Sample new word, for concrete witnesses. -/
def wC : Word :=
  { id := "c", japanese := "川", furigana := "かわ", korean := "강",
    categoryId := "c1", wrongCount := 0, correctStreak := 0,
    createdAt := "2024-03-03" }

/-- Sample new word registered later, for concrete witnesses. -/
def wD : Word :=
  { id := "d", japanese := "空", furigana := "そら", korean := "하늘",
    categoryId := "c2", wrongCount := 0, correctStreak := 0,
    createdAt := "2024-03-04" }

/-- Sample app state: one word, empty log, an active one-card session. -/
def sampleState : AppState :=
  { words := [wA], studyLog := fun _ => none,
    session := some { categoryId := "all", words := [wA], currentIndex := 0,
                      results := [], isFlipped := false } }

/-- Sample app state without a session, for the defensive no-op witnesses. -/
def idleState : AppState :=
  { words := [wA, wB, wC], studyLog := fun _ => none, session := none }

/-- Consing a displaced element in front of a list with a replacement at
position j is a permutation of consing the replacement in front. -/
theorem cons_set_perm {α} (a b : α) (l : List α) (j : Nat) (h : l[j]? = some b) :
    List.Perm (b :: l.set j a) (a :: l) := by
  induction l generalizing j with
  | nil => simp at h
  | cons x xs ih =>
    cases j with
    | zero =>
      simp at h
      subst h
      exact List.Perm.swap a x xs
    | succ j =>
      simp at h
      have h1 : List.Perm (b :: x :: xs.set j a) (x :: b :: xs.set j a) :=
        List.Perm.swap x b (xs.set j a)
      have h2 : List.Perm (x :: b :: xs.set j a) (x :: a :: xs) :=
        List.Perm.cons x (ih j h)
      have h3 : List.Perm (x :: a :: xs) (a :: x :: xs) := List.Perm.swap a x xs
      exact (h1.trans h2).trans h3

/-- Swapping two present positions of a list permutes it. -/
theorem set_set_perm {α} (l : List α) (i j : Nat) (a b : α)
    (hi : l[i]? = some a) (hj : l[j]? = some b) :
    List.Perm ((l.set i b).set j a) l := by
  induction l generalizing i j with
  | nil => simp at hi
  | cons x xs ih =>
    cases i with
    | zero =>
      simp at hi
      subst hi
      cases j with
      | zero =>
        simp at hj
        subst hj
        simp
      | succ j =>
        simp at hj
        exact cons_set_perm x b xs j hj
    | succ i =>
      simp at hi
      cases j with
      | zero =>
        simp at hj
        subst hj
        exact cons_set_perm x a xs i hi
      | succ j =>
        simp at hj
        exact List.Perm.cons x (ih i j hi hj)

/-- A listSwap is always a permutation (identity when out of range). -/
theorem listSwap_perm {α} (l : List α) (i j : Nat) :
    List.Perm (listSwap l i j) l := by
  unfold listSwap
  split
  case h_1 a b hi hj => exact set_set_perm l i j a b hi hj
  case h_2 => exact List.Perm.refl l

/-- The Fisher-Yates loop permutes its input. -/
theorem fyLoop_perm {α} (rand : Nat → Nat) :
    ∀ (n : Nat) (l : List α), List.Perm (fyLoop rand n l) l
  | 0, l => List.Perm.refl l
  | n + 1, l =>
    (fyLoop_perm rand n (listSwap l (n + 1) (rand (n + 1) % (n + 2)))).trans
      (listSwap_perm l (n + 1) (rand (n + 1) % (n + 2)))

/-- The shuffle of quiz.js permutes its input, for every choice function. -/
theorem shuffle_perm {α} (rand : Nat → Nat) (l : List α) :
    List.Perm (shuffle rand l) l :=
  fyLoop_perm rand (l.length - 1) l

/-- Stable insertion permutes (element consed on). -/
theorem insertSorted_perm {α} (before : α → α → Bool) (a : α) (l : List α) :
    List.Perm (insertSorted before a l) (a :: l) := by
  induction l with
  | nil => exact List.Perm.refl [a]
  | cons x xs ih =>
    cases hb : before a x with
    | true => simp [insertSorted, hb]
    | false =>
      simp only [insertSorted, hb, Bool.false_eq_true, if_false]
      exact (List.Perm.cons x ih).trans (List.Perm.swap a x xs)

/-- The stable sort permutes its input. -/
theorem sortStable_perm {α} (before : α → α → Bool) (l : List α) :
    List.Perm (sortStable before l) l := by
  induction l with
  | nil => exact List.Perm.refl []
  | cons a l ih =>
    exact (insertSorted_perm before a (sortStable before l)).trans
      (List.Perm.cons a ih)

/-- Stable insertion preserves sortedness, given a total transitive test. -/
theorem insertSorted_pairwise {α} (before : α → α → Bool)
    (htot : ∀ x y, before x y = true ∨ before y x = true)
    (htrans : ∀ x y z, before x y = true → before y z = true → before x z = true)
    (a : α) (l : List α) (h : l.Pairwise (fun x y => before x y = true)) :
    (insertSorted before a l).Pairwise (fun x y => before x y = true) := by
  induction l with
  | nil => simp [insertSorted]
  | cons x xs ih =>
    rcases List.pairwise_cons.mp h with ⟨hx, hxs⟩
    cases hb : before a x with
    | true =>
      simp only [insertSorted, hb, if_true]
      refine List.pairwise_cons.mpr ⟨?_, h⟩
      intro y hy
      rcases List.mem_cons.mp hy with rfl | hy2
      · exact hb
      · exact htrans a x y hb (hx y hy2)
    | false =>
      simp only [insertSorted, hb, Bool.false_eq_true, if_false]
      refine List.pairwise_cons.mpr ⟨?_, ih hxs⟩
      intro y hy
      have hy2 := (insertSorted_perm before a xs).mem_iff.mp hy
      rcases List.mem_cons.mp hy2 with rfl | hy3
      · rcases htot y x with h1 | h1
        · exact absurd h1 (by simp [hb])
        · exact h1
      · exact hx y hy3

/-- The stable sort is sorted, given a total transitive test. -/
theorem sortStable_pairwise {α} (before : α → α → Bool)
    (htot : ∀ x y, before x y = true ∨ before y x = true)
    (htrans : ∀ x y z, before x y = true → before y z = true → before x z = true)
    (l : List α) :
    (sortStable before l).Pairwise (fun x y => before x y = true) := by
  induction l with
  | nil => simp [sortStable]
  | cons a l ih => exact insertSorted_pairwise before htot htrans a _ ih

/-- Stability of insertion: for a test p that never holds on both sides of
a strict ordering step, the p-filter is unchanged by the insertion point. -/
theorem insertSorted_filter_eq {α} (before : α → α → Bool) (p : α → Bool)
    (hcompat : ∀ x y, before x y = false → p x = true → p y = true → False)
    (a : α) (l : List α) :
    (insertSorted before a l).filter p = ((a :: l).filter p) := by
  induction l with
  | nil => rfl
  | cons x xs ih =>
    cases hb : before a x with
    | true => simp [insertSorted, hb]
    | false =>
      simp only [insertSorted, hb, Bool.false_eq_true, if_false]
      cases hpa : p a with
      | true =>
        cases hpx : p x with
        | true => exact (hcompat a x hb hpa hpx).elim
        | false => simp [List.filter_cons, hpa, hpx, ih]
      | false =>
        cases hpx : p x with
        | true => simp [List.filter_cons, hpa, hpx, ih]
        | false => simp [List.filter_cons, hpa, hpx, ih]

/-- Stability of the sort: the p-filter of the sorted list is the p-filter
of the input, for any p concentrated on one tie class. -/
theorem sortStable_filter_eq {α} (before : α → α → Bool) (p : α → Bool)
    (hcompat : ∀ x y, before x y = false → p x = true → p y = true → False)
    (l : List α) :
    (sortStable before l).filter p = l.filter p := by
  induction l with
  | nil => rfl
  | cons a l ih =>
    calc (sortStable before (a :: l)).filter p
        = ((a :: sortStable before l).filter p) :=
          insertSorted_filter_eq before p hcompat a (sortStable before l)
      _ = (a :: l).filter p := by
          cases hpa : p a <;> simp [List.filter_cons, hpa, ih]

/-- jsTake always yields a sublist (both branches are takes). -/
theorem jsTake_sublist {α} (e : Int) (l : List α) :
    List.Sublist (jsTake e l) l := by
  unfold jsTake
  split
  · exact List.take_sublist _ _
  · exact List.take_sublist _ _

/-- jsTake with a nonnegative end is an ordinary take. -/
theorem jsTake_nonneg {α} (e : Int) (h : 0 ≤ e) (l : List α) :
    jsTake e l = l.take e.toNat := by
  unfold jsTake
  rw [if_neg (by omega)]

/-- Cross property of a pairwise list: every taken element relates to
every dropped element. -/
theorem pairwise_take_drop {α} {R : α → α → Prop} {l : List α}
    (h : l.Pairwise R) (k : Nat) :
    ∀ x ∈ l.take k, ∀ y ∈ l.drop k, R x y := by
  have h2 : (l.take k ++ l.drop k).Pairwise R := by
    rw [List.take_append_drop]
    exact h
  exact (List.pairwise_append.mp h2).2.2

/-- Filtering by a test and by its negation partitions the length. -/
theorem length_filter_partition {α} (p : α → Bool) (l : List α) :
    (l.filter p).length + (l.filter (fun a => !(p a))).length = l.length := by
  induction l with
  | nil => rfl
  | cons x xs ih =>
    cases h : p x <;> simp [List.filter_cons, h] <;> omega

/-- Setting a position to the element it already holds is the identity. -/
theorem set_getElem_self {α} :
    ∀ (l : List α) (i : Nat) (a : α), l[i]? = some a → l.set i a = l := by
  intro l
  induction l with
  | nil => intro i a h; simp at h
  | cons x xs ih =>
    intro i a h
    cases i with
    | zero =>
      simp at h
      simp [h]
    | succ i =>
      simp at h
      simp [List.set, ih i a h]

/-- A successful findIndex returns a present, matching element. -/
theorem findIndex_some {α} {p : α → Bool} :
    ∀ {l : List α} {i : Nat}, findIndex p l = some i →
      ∃ a, l[i]? = some a ∧ p a = true := by
  intro l
  induction l with
  | nil => intro i h; simp [findIndex] at h
  | cons x xs ih =>
    intro i h
    cases hpx : p x with
    | true =>
      simp [findIndex, hpx] at h
      exact ⟨x, by simp [h.symm], hpx⟩
    | false =>
      simp [findIndex, hpx] at h
      rcases h with ⟨j, hj, rfl⟩
      rcases ih hj with ⟨a, ha, hpa⟩
      exact ⟨a, by simpa using ha, hpa⟩

/-- findIndex is unchanged by overwriting the found position with another
matching element. -/
theorem findIndex_set_same {α} {p : α → Bool} :
    ∀ {l : List α} {i : Nat} (w : α), findIndex p l = some i → p w = true →
      findIndex p (l.set i w) = some i := by
  intro l
  induction l with
  | nil => intro i w h _; simp [findIndex] at h
  | cons x xs ih =>
    intro i w h hw
    cases hpx : p x with
    | true =>
      simp [findIndex, hpx] at h
      simp [h.symm, List.set, findIndex, hw]
    | false =>
      simp [findIndex, hpx] at h
      rcases h with ⟨j, hj, rfl⟩
      simp [List.set, findIndex, hpx, ih w hj hw]

/-- findIndex misses exactly when no element matches. -/
theorem findIndex_eq_none {α} (p : α → Bool) :
    ∀ (l : List α), (∀ a ∈ l, p a = false) → findIndex p l = none := by
  intro l
  induction l with
  | nil => intro _; rfl
  | cons x xs ih =>
    intro h
    simp [findIndex, h x (List.mem_cons_self x xs), ih (fun a ha => h a (List.mem_cons_of_mem x ha))]

/-- findIndex succeeds when some element matches. -/
theorem findIndex_isSome_of_mem {α} (p : α → Bool) :
    ∀ (l : List α) (a : α), a ∈ l → p a = true → (findIndex p l).isSome = true := by
  intro l
  induction l with
  | nil => intro a ha _; simp at ha
  | cons x xs ih =>
    intro a ha hpa
    rcases List.mem_cons.mp ha with rfl | ha2
    · simp [findIndex, hpa]
    · cases hpx : p x with
      | true => simp [findIndex, hpx]
      | false => simp [findIndex, hpx, ih a ha2 hpa]

/-- applyCorrect never changes the identifier. -/
theorem applyCorrect_id (s : Settings) (w : Word) : (applyCorrect s w).id = w.id := by
  simp only [applyCorrect]
  split <;> rfl

/-- Iterated applyCorrect never changes the identifier. -/
theorem applyCorrect_iterate_id (s : Settings) (w : Word) :
    ∀ k, ((applyCorrect s)^[k] w).id = w.id := by
  intro k
  induction k with
  | zero => rfl
  | succ k ih =>
    rw [Function.iterate_succ_apply', applyCorrect_id, ih]

/-- Orbit of a wrong-pool word under consecutive correct answers: below
the graduation threshold only the streak grows; at the threshold both
counters reset. -/
theorem applyCorrect_orbit (s : Settings) (w : Word)
    (hg : 1 ≤ s.graduationStreak) (hwc : 0 < w.wrongCount)
    (hcs : w.correctStreak = 0) :
    (∀ k, k < s.graduationStreak →
      (applyCorrect s)^[k] w = { w with correctStreak := k })
    ∧ (applyCorrect s)^[s.graduationStreak] w
        = { w with wrongCount := 0, correctStreak := 0 } := by
  have base : ∀ k, k < s.graduationStreak →
      (applyCorrect s)^[k] w = { w with correctStreak := k } := by
    intro k
    induction k with
    | zero =>
      intro _
      rw [Function.iterate_zero_apply]
      rw [← hcs]
    | succ k ih =>
      intro hk
      rw [Function.iterate_succ_apply', ih (by omega)]
      unfold applyCorrect
      rw [if_neg (by simp; omega)]
  refine ⟨base, ?_⟩
  have hsub : s.graduationStreak = (s.graduationStreak - 1) + 1 := by omega
  rw [hsub, Function.iterate_succ_apply', base (s.graduationStreak - 1) (by omega)]
  unfold applyCorrect
  rw [if_pos (by simp [hwc]; omega)]

/-- markCorrect on a located word is a single-position update. -/
theorem markCorrect_eq_set (s : Settings) (id : String)
    {ws : List Word} {i : Nat} {w : Word}
    (hf : findIndex (fun x => x.id == id) ws = some i) (hw : ws[i]? = some w) :
    markCorrect s ws id = ws.set i (applyCorrect s w) := by
  simp only [markCorrect, hf, hw]

/-- markWrong on a located word is a single-position update. -/
theorem markWrong_eq_set (id : String)
    {ws : List Word} {i : Nat} {w : Word}
    (hf : findIndex (fun x => x.id == id) ws = some i) (hw : ws[i]? = some w) :
    markWrong ws id = ws.set i (applyWrong w) := by
  simp only [markWrong, hf, hw]

/-- markCorrect keeps finding the same word and applies applyCorrect once
per call, at a fixed position. -/
theorem markCorrect_iterate (s : Settings) (id : String)
    {words : List Word} {i : Nat} {w : Word}
    (hf : findIndex (fun x => x.id == id) words = some i)
    (hw : words[i]? = some w) :
    ∀ k, findIndex (fun x => x.id == id) ((fun ws => markCorrect s ws id)^[k] words) = some i
       ∧ ((fun ws => markCorrect s ws id)^[k] words)[i]? = some ((applyCorrect s)^[k] w) := by
  have hpw : (w.id == id) = true := by
    rcases findIndex_some hf with ⟨a, ha, hpa⟩
    rw [hw] at ha
    cases ha
    exact hpa
  intro k
  induction k with
  | zero => exact ⟨hf, by simpa using hw⟩
  | succ k ih =>
    rcases ih with ⟨ihf, ihw⟩
    have hlen : i < ((fun ws => markCorrect s ws id)^[k] words).length :=
      (List.getElem?_eq_some.mp ihw).1
    have hstep : (fun ws => markCorrect s ws id)^[k + 1] words
        = ((fun ws => markCorrect s ws id)^[k] words).set i
            (applyCorrect s ((applyCorrect s)^[k] w)) := by
      rw [Function.iterate_succ_apply']
      exact markCorrect_eq_set s id ihf ihw
    constructor
    · rw [hstep]
      apply findIndex_set_same _ ihf
      rw [applyCorrect_id, applyCorrect_iterate_id]
      exact hpw
    · rw [hstep, Function.iterate_succ_apply']
      exact List.getElem?_set_self hlen

/-- C3: for every word with wrongCount > 0 and every settings with
graduationStreak ≥ 1, answering correctly exactly graduationStreak times
consecutively starting from correctStreak = 0 resets both wrongCount and
correctStreak to 0 on the streak-completing answer, while every earlier
correct answer only increments correctStreak; in general a correct answer
that does not meet the graduation condition only increments correctStreak
by 1. -/
theorem claim_c3_graduation (s : Settings) (words : List Word) (id : String)
    (i : Nat) (w : Word)
    (hg : 1 ≤ s.graduationStreak)
    (hf : findIndex (fun x => x.id == id) words = some i)
    (hw : words[i]? = some w)
    (hwc : 0 < w.wrongCount) (hcs : w.correctStreak = 0) :
    ((fun ws => markCorrect s ws id)^[s.graduationStreak] words)[i]?
        = some { w with wrongCount := 0, correctStreak := 0 }
    ∧ (∀ k, k < s.graduationStreak →
        ((fun ws => markCorrect s ws id)^[k] words)[i]?
          = some { w with correctStreak := k })
    ∧ (∀ ws j v, findIndex (fun x => x.id == id) ws = some j → ws[j]? = some v →
        ¬(0 < v.wrongCount ∧ s.graduationStreak ≤ v.correctStreak + 1) →
        markCorrect s ws id
          = ws.set j { v with correctStreak := v.correctStreak + 1 }) := by
  obtain ⟨horb1, horb2⟩ := applyCorrect_orbit s w hg hwc hcs
  refine ⟨?_, ?_, ?_⟩
  · have h := (markCorrect_iterate s id hf hw s.graduationStreak).2
    rw [horb2] at h
    exact h
  · intro k hk
    have h := (markCorrect_iterate s id hf hw k).2
    rw [horb1 k hk] at h
    exact h
  · intro ws j v hfj hwj hcond
    rw [markCorrect_eq_set s id hfj hwj]
    have happ : applyCorrect s v = { v with correctStreak := v.correctStreak + 1 } := by
      simp only [applyCorrect]
      rw [if_neg hcond]
    rw [happ]

/-- Witness for C3 at a concrete store: the sample word graduates after
three correct answers under the default settings. -/
theorem claim_c3_witness :
    (1 ≤ (⟨10, 3⟩ : Settings).graduationStreak
      ∧ findIndex (fun x => x.id == "a") [wA] = some 0
      ∧ [wA][0]? = some wA ∧ 0 < wA.wrongCount ∧ wA.correctStreak = 0)
    ∧ ((fun ws => markCorrect ⟨10, 3⟩ ws "a")^[(⟨10, 3⟩ : Settings).graduationStreak] [wA])[0]?
        = some { wA with wrongCount := 0, correctStreak := 0 } :=
  ⟨⟨by decide, by decide, by decide, by decide, by decide⟩,
   (claim_c3_graduation ⟨10, 3⟩ [wA] "a" 0 wA (by decide) (by decide) (by decide)
     (by decide) (by decide)).1⟩

/-- C4: for every word present in the store, answering it wrong sets
correctStreak to 0 regardless of its prior value and increments
wrongCount by exactly 1; the session-level answerWrong routes the update
through markWrong on the current card. -/
theorem claim_c4_wrong_answer (words : List Word) (id : String) (i : Nat) (w : Word)
    (hf : findIndex (fun x => x.id == id) words = some i)
    (hw : words[i]? = some w) :
    markWrong words id
        = words.set i { w with wrongCount := w.wrongCount + 1, correctStreak := 0 }
    ∧ (markWrong words id)[i]?
        = some { w with wrongCount := w.wrongCount + 1, correctStreak := 0 }
    ∧ (∀ today st sess, st.session = some sess → currentWord st = some w →
        (answerWrong today st).1.words = markWrong st.words w.id) := by
  have h1 := markWrong_eq_set id hf hw
  have h2 : applyWrong w = { w with wrongCount := w.wrongCount + 1, correctStreak := 0 } := rfl
  refine ⟨by rw [h1, h2], ?_, ?_⟩
  · rw [h1, h2]
    exact List.getElem?_set_self (List.getElem?_eq_some.mp hw).1
  · intro today st sess hsess hcw
    simp [answerWrong, hsess, hcw, nextStep]

/-- Witness for C4 at a concrete store: one wrong answer on the sample
word bumps its counter and clears its streak. -/
theorem claim_c4_witness :
    (findIndex (fun x => x.id == "b") [wA, wB] = some 1
      ∧ [wA, wB][1]? = some wB)
    ∧ markWrong [wA, wB] "b"
        = [wA, wB].set 1 { wB with wrongCount := wB.wrongCount + 1, correctStreak := 0 } :=
  ⟨⟨by decide, by decide⟩,
   (claim_c4_wrong_answer [wA, wB] "b" 1 wB (by decide) (by decide)).1⟩

/-- C6: for the wrong-note scope the returned sequence never exceeds
dailyGoal cards and every returned word is in the wrong pool
(wrongCount ≥ 1), for every pool and every choice function. -/
theorem claim_c6_wrong_mode (s : Settings) (rand : Nat → Nat) (words : List Word)
    (hdg : 1 ≤ s.dailyGoal) :
    (buildDailyWords s rand words "wrong").length ≤ s.dailyGoal
    ∧ ∀ w ∈ buildDailyWords s rand words "wrong", 1 ≤ w.wrongCount := by
  have hb : buildDailyWords s rand words "wrong"
      = jsTake (s.dailyGoal : Int) (shuffle rand (getWrongWords words)) := by
    unfold buildDailyWords
    rw [if_pos rfl]
  rw [hb, jsTake_nonneg _ (Int.natCast_nonneg s.dailyGoal)]
  constructor
  · have h := List.length_take_le ((s.dailyGoal : Int)).toNat
      (shuffle rand (getWrongWords words))
    simpa using h
  · intro w hw
    have hw2 : w ∈ shuffle rand (getWrongWords words) :=
      (List.take_sublist _ _).subset hw
    have hw3 : w ∈ getWrongWords words := (shuffle_perm rand _).mem_iff.mp hw2
    have hperm : List.Perm (getWrongWords words)
        (words.filter (fun v => decide (1 ≤ v.wrongCount))) := by
      unfold getWrongWords sortWrongDesc
      exact sortStable_perm _ _
    have hmem := List.of_mem_filter (hperm.mem_iff.mp hw3)
    simpa using hmem

/-- Witness for C6 at a concrete store holding wrong and new words. -/
theorem claim_c6_witness :
    1 ≤ (⟨10, 3⟩ : Settings).dailyGoal
    ∧ ∀ w ∈ buildDailyWords ⟨10, 3⟩ (fun _ => 0) [wA, wB, wC] "wrong",
        1 ≤ w.wrongCount :=
  ⟨by decide, (claim_c6_wrong_mode ⟨10, 3⟩ (fun _ => 0) [wA, wB, wC] (by decide)).2⟩

/-- C10: markCorrect and markWrong with an absent id leave the store
unchanged; with a present id they rewrite only the located position, and
the replacement changes no field besides wrongCount and correctStreak. -/
theorem claim_c10_frame (s : Settings) (words : List Word) (id : String) :
    ((∀ w ∈ words, (w.id == id) = false) →
      markCorrect s words id = words ∧ markWrong words id = words)
    ∧ (∀ i w, findIndex (fun x => x.id == id) words = some i → words[i]? = some w →
      markCorrect s words id = words.set i (applyCorrect s w)
      ∧ markWrong words id = words.set i (applyWrong w)
      ∧ (∀ j, j ≠ i → (markCorrect s words id)[j]? = words[j]?
            ∧ (markWrong words id)[j]? = words[j]?)
      ∧ (applyCorrect s w).id = w.id
      ∧ (applyCorrect s w).japanese = w.japanese
      ∧ (applyCorrect s w).furigana = w.furigana
      ∧ (applyCorrect s w).korean = w.korean
      ∧ (applyCorrect s w).categoryId = w.categoryId
      ∧ (applyCorrect s w).createdAt = w.createdAt
      ∧ applyWrong w = { w with wrongCount := w.wrongCount + 1, correctStreak := 0 })
    ∧ (∀ w ∈ words, (w.id == id) = true →
        (findIndex (fun x => x.id == id) words).isSome = true) := by
  refine ⟨?_, ?_, ?_⟩
  · intro h
    have hn := findIndex_eq_none (fun x => x.id == id) words h
    exact ⟨by simp only [markCorrect, hn], by simp only [markWrong, hn]⟩
  · intro i w hf hw
    refine ⟨markCorrect_eq_set s id hf hw, markWrong_eq_set id hf hw, ?_, ?_, ?_, ?_, ?_, ?_, ?_, rfl⟩
    · intro j hj
      rw [markCorrect_eq_set s id hf hw, markWrong_eq_set id hf hw]
      exact ⟨List.getElem?_set_ne hj.symm, List.getElem?_set_ne hj.symm⟩
    · exact applyCorrect_id s w
    · simp only [applyCorrect]
      split <;> rfl
    · simp only [applyCorrect]
      split <;> rfl
    · simp only [applyCorrect]
      split <;> rfl
    · simp only [applyCorrect]
      split <;> rfl
    · simp only [applyCorrect]
      split <;> rfl
  · intro w hwmem hpw
    exact findIndex_isSome_of_mem _ words w hwmem hpw

/-- C5: a study-log commit happens exactly at the answer that moves
currentIndex to words.length, with count equal to the number of answered
cards (which equals the session length there); once completed, answer
calls are no-ops so no second commit can happen; and the commit merges
into an existing same-day entry by adding the count and keeping the
existing (truthy) categoryId. -/
theorem claim_c5_commit (s : Settings) (today : String) (st : AppState) (sess : Session)
    (hsess : st.session = some sess)
    (hinv : sess.results.length = sess.currentIndex) :
    (∀ w, sess.words[sess.currentIndex]? = some w →
      (sess.currentIndex + 1 = sess.words.length →
        (answerCorrect s today st).1.studyLog
            = recordStudy st.studyLog today sess.words.length sess.categoryId
        ∧ (answerWrong today st).1.studyLog
            = recordStudy st.studyLog today sess.words.length sess.categoryId)
      ∧ (sess.currentIndex + 1 < sess.words.length →
        (answerCorrect s today st).1.studyLog = st.studyLog
        ∧ (answerWrong today st).1.studyLog = st.studyLog)
      ∧ (answerCorrect s today st).1.session
          = some { sess with
                    results := sess.results ++ [(w.id, true)],
                    isFlipped := false,
                    currentIndex := sess.currentIndex + 1 }
      ∧ (answerWrong today st).1.session
          = some { sess with
                    results := sess.results ++ [(w.id, false)],
                    isFlipped := false,
                    currentIndex := sess.currentIndex + 1 })
    ∧ (sess.words.length ≤ sess.currentIndex →
        answerCorrect s today st = (st, none) ∧ answerWrong today st = (st, none))
    ∧ (∀ log date n cat e, log date = some e →
        recordStudy log date n cat date
          = some { count := e.count + n,
                   categoryId := if e.categoryId = "" then cat else e.categoryId }) := by
  refine ⟨?_, ?_, ?_⟩
  · intro w hw
    have hcw : currentWord st = some w := by
      simp [currentWord, hsess, hw]
    have hac : answerCorrect s today st
        = nextStep today { st with words := markCorrect s st.words w.id }
            { sess with
              results := sess.results ++ [(w.id, true)],
              isFlipped := false,
              currentIndex := sess.currentIndex + 1 } := by
      simp [answerCorrect, hsess, hcw]
    have haw : answerWrong today st
        = nextStep today { st with words := markWrong st.words w.id }
            { sess with
              results := sess.results ++ [(w.id, false)],
              isFlipped := false,
              currentIndex := sess.currentIndex + 1 } := by
      simp [answerWrong, hsess, hcw]
    refine ⟨?_, ?_, ?_, ?_⟩
    · intro hlen
      have hdone : decide (sess.words.length ≤ sess.currentIndex + 1) = true := by
        simp
        omega
      have hcount : sess.results.length + 1 = sess.words.length := by omega
      constructor
      · rw [hac]
        simp [nextStep, hdone, hcount]
      · rw [haw]
        simp [nextStep, hdone, hcount]
    · intro hlen
      have hdone : decide (sess.words.length ≤ sess.currentIndex + 1) = false := by
        simp
        omega
      constructor
      · rw [hac]
        simp [nextStep, hdone]
      · rw [haw]
        simp [nextStep, hdone]
    · rw [hac]
      simp [nextStep]
    · rw [haw]
      simp [nextStep]
  · intro hlen
    have hcw : currentWord st = none := by
      simp [currentWord, hsess, List.getElem?_eq_none hlen]
    constructor
    · simp [answerCorrect, hsess, hcw]
    · simp [answerWrong, hsess, hcw]
  · intro log date n cat e he
    simp [recordStudy, he]

/-- Witness for C5 at the concrete one-card sample state, including the
merge behaviour of recordStudy. -/
theorem claim_c5_witness :
    (sampleState.session
        = some { categoryId := "all", words := [wA], currentIndex := 0,
                 results := [], isFlipped := false }
      ∧ ([] : List (String × Bool)).length = 0)
    ∧ (∀ log date n cat e, log date = some e →
        recordStudy log date n cat date
          = some { count := e.count + n,
                   categoryId := if e.categoryId = "" then cat else e.categoryId }) :=
  ⟨⟨rfl, rfl⟩, (claim_c5_commit ⟨10, 3⟩ "2024-03-05" sampleState
      { categoryId := "all", words := [wA], currentIndex := 0,
        results := [], isFlipped := false } rfl rfl).2.2⟩

/-- C8: startSession reports the empty-pool error exactly when the
scheduler returns an empty sequence (leaving the state unchanged), and
otherwise installs a session with currentIndex = 0, results = [] and
isFlipped = false; currentWord, flipCard and the two answer operations
on a state without a session return neutral values and change nothing. -/
theorem claim_c8_start (s : Settings) (rand : Nat → Nat) (cid : String)
    (st : AppState) (today : String) :
    ((startSession s rand cid st).2 = StartResult.error emptyPoolMessage
        ↔ buildDailyWords s rand st.words cid = [])
    ∧ ((startSession s rand cid st).2 = StartResult.error emptyPoolMessage →
        (startSession s rand cid st).1 = st)
    ∧ (buildDailyWords s rand st.words cid ≠ [] →
        (startSession s rand cid st).1.session
          = some { categoryId := cid, words := buildDailyWords s rand st.words cid,
                   currentIndex := 0, results := [], isFlipped := false }
        ∧ (startSession s rand cid st).2
          = StartResult.ok
              { categoryId := cid, words := buildDailyWords s rand st.words cid,
                currentIndex := 0, results := [], isFlipped := false })
    ∧ (st.session = none →
        currentWord st = none
        ∧ flipCard st = (st, none)
        ∧ answerCorrect s today st = (st, none)
        ∧ answerWrong today st = (st, none)) := by
  have hidle : st.session = none →
      currentWord st = none
      ∧ flipCard st = (st, none)
      ∧ answerCorrect s today st = (st, none)
      ∧ answerWrong today st = (st, none) := by
    intro hnone
    refine ⟨by simp [currentWord, hnone], by simp [flipCard, hnone],
      by simp [answerCorrect, hnone], by simp [answerWrong, hnone]⟩
  by_cases hb : buildDailyWords s rand st.words cid = []
  · have hz : (buildDailyWords s rand st.words cid).length = 0 := by
      rw [hb]
      rfl
    refine ⟨?_, ?_, ?_, hidle⟩
    · simp [startSession, hz, hb]
    · intro _
      simp [startSession, hz]
    · intro hcontra
      exact absurd hb hcontra
  · have hz : ¬ (buildDailyWords s rand st.words cid).length = 0 := by
      intro h
      exact hb (List.eq_nil_of_length_eq_zero h)
    refine ⟨?_, ?_, ?_, hidle⟩
    · simp [startSession, hz, hb]
    · intro he
      have : (startSession s rand cid st).2
          = StartResult.ok
              { categoryId := cid, words := buildDailyWords s rand st.words cid,
                currentIndex := 0, results := [], isFlipped := false } := by
        simp [startSession, hz]
      rw [this] at he
      exact absurd he (by simp)
    · intro _
      constructor
      · simp [startSession, hz]
      · simp [startSession, hz]

/-- buildDailyWords on a non-wrong scope is the shuffled biased selection
over the scope pool. -/
theorem buildDailyWords_not_wrong (s : Settings) (rand : Nat → Nat)
    (words : List Word) (cid : String) (h : cid ≠ "wrong") :
    buildDailyWords s rand words cid
      = shuffle rand (wrongSelected s (poolFor words cid)
          ++ newSelected s (poolFor words cid)) := by
  unfold buildDailyWords
  rw [if_neg h]

/-- The descending wrongCount sort permutes its input. -/
theorem sortWrongDesc_perm (l : List Word) : List.Perm (sortWrongDesc l) l :=
  sortStable_perm _ l

/-- The ascending createdAt sort permutes its input. -/
theorem sortCreatedAsc_perm (l : List Word) : List.Perm (sortCreatedAsc l) l :=
  sortStable_perm _ l

/-- The descending wrongCount sort is sorted. -/
theorem sortWrongDesc_pairwise (l : List Word) :
    (sortWrongDesc l).Pairwise (fun x y => y.wrongCount ≤ x.wrongCount) := by
  have h := sortStable_pairwise (fun a b : Word => decide (b.wrongCount ≤ a.wrongCount))
    (fun x y => by
      rcases Nat.le_total y.wrongCount x.wrongCount with h | h
      · exact Or.inl (decide_eq_true h)
      · exact Or.inr (decide_eq_true h))
    (fun x y z hxy hyz =>
      decide_eq_true (Nat.le_trans (of_decide_eq_true hyz) (of_decide_eq_true hxy)))
    l
  exact h.imp (fun hab => of_decide_eq_true hab)

/-- The ascending createdAt sort is sorted. -/
theorem sortCreatedAsc_pairwise (l : List Word) :
    (sortCreatedAsc l).Pairwise (fun x y => x.createdAt ≤ y.createdAt) := by
  have h := sortStable_pairwise (fun a b : Word => decide (a.createdAt ≤ b.createdAt))
    (fun x y => by
      rcases le_total x.createdAt y.createdAt with h | h
      · exact Or.inl (decide_eq_true h)
      · exact Or.inr (decide_eq_true h))
    (fun x y z hxy hyz =>
      decide_eq_true (le_trans (of_decide_eq_true hxy) (of_decide_eq_true hyz)))
    l
  exact h.imp (fun hab => of_decide_eq_true hab)

/-- Stability of the descending wrongCount sort: every tie class keeps
its original relative order. -/
theorem sortWrongDesc_stable (l : List Word) (c : Nat) :
    (sortWrongDesc l).filter (fun w => w.wrongCount == c)
      = l.filter (fun w => w.wrongCount == c) := by
  apply sortStable_filter_eq
  intro x y hxy hpx hpy
  simp at hxy hpx hpy
  omega

/-- Every selected wrong word is a wrong-pool member of the scope. -/
theorem wrongSelected_mem (s : Settings) (pool : List Word) (x : Word)
    (hx : x ∈ wrongSelected s pool) : x ∈ pool ∧ 1 ≤ x.wrongCount := by
  have h1 : x ∈ sortWrongDesc (pool.filter (fun w => decide (1 ≤ w.wrongCount))) :=
    (jsTake_sublist _ _).subset hx
  have h2 : x ∈ pool.filter (fun w => decide (1 ≤ w.wrongCount)) :=
    (sortWrongDesc_perm _).mem_iff.mp h1
  refine ⟨List.mem_of_mem_filter h2, ?_⟩
  have h3 := List.of_mem_filter h2
  simpa using h3

/-- Every selected new word is a pool member with wrongCount = 0 whose id
avoids the selected wrong words. -/
theorem newSelected_mem (s : Settings) (pool : List Word) (x : Word)
    (hx : x ∈ newSelected s pool) :
    x ∈ pool ∧ x.wrongCount = 0
      ∧ (((wrongSelected s pool).map (fun v => v.id)).contains x.id) = false := by
  have h1 : x ∈ newCandidates s pool := (jsTake_sublist _ _).subset hx
  have h2 : x ∈ pool.filter (fun w => (w.wrongCount == 0)
      && !(((wrongSelected s pool).map (fun v => v.id)).contains w.id)) := by
    unfold newCandidates sortCreatedAsc at h1
    exact (sortStable_perm _ _).mem_iff.mp h1
  have h3 := List.of_mem_filter h2
  simp only [Bool.and_eq_true, beq_iff_eq, Bool.not_eq_true'] at h3
  exact ⟨List.mem_of_mem_filter h2, h3.1, h3.2⟩

/-- With duplicate-free ids, the already-selected filter on new
candidates is vacuous: they are exactly the unseen words, oldest first. -/
theorem newCandidates_eq_of_nodup (s : Settings) (pool : List Word)
    (hids : (pool.map (fun w => w.id)).Nodup) :
    newCandidates s pool
      = sortCreatedAsc (pool.filter (fun w => w.wrongCount == 0)) := by
  unfold newCandidates
  congr 1
  apply List.filter_congr
  intro w hw
  cases hwc : (w.wrongCount == 0) with
  | false => simp [hwc]
  | true =>
    cases hcont : (((wrongSelected s pool).map (fun v => v.id)).contains w.id) with
    | false => simp [hwc, hcont]
    | true =>
      exfalso
      have hmem : w.id ∈ (wrongSelected s pool).map (fun v => v.id) :=
        List.elem_iff.mp hcont
      rcases List.mem_map.mp hmem with ⟨v, hv, hvid⟩
      have hvmem := wrongSelected_mem s pool v hv
      have hveq : v = w :=
        List.inj_on_of_nodup_map hids hvmem.1 hw hvid
      have hwc0 : w.wrongCount = 0 := by simpa using hwc
      rw [hveq] at hvmem
      omega

/-- Length of the wrong selection for dailyGoal ≥ 2. -/
theorem wrongSelected_length (s : Settings) (pool : List Word)
    (hdg : 2 ≤ s.dailyGoal) :
    (wrongSelected s pool).length
      = min (s.dailyGoal - 2)
          (pool.filter (fun w => decide (1 ≤ w.wrongCount))).length := by
  unfold wrongSelected
  rw [jsTake_nonneg _ (by omega), List.length_take]
  congr 1
  · omega
  · exact (sortWrongDesc_perm _).length_eq

/-- For dailyGoal ≥ 2 the wrong selection is a plain take of the sorted
wrong pool. -/
theorem wrongSelected_eq_take (s : Settings) (pool : List Word)
    (hdg : 2 ≤ s.dailyGoal) :
    wrongSelected s pool
      = (sortWrongDesc (pool.filter (fun w => decide (1 ≤ w.wrongCount)))).take
          (s.dailyGoal - 2) := by
  unfold wrongSelected
  rw [jsTake_nonneg _ (by omega)]
  congr 1
  omega

/-- For dailyGoal ≥ 2 the new selection is a plain take of the new
candidates. -/
theorem newSelected_eq_take (s : Settings) (pool : List Word)
    (hdg : 2 ≤ s.dailyGoal) :
    newSelected s pool
      = (newCandidates s pool).take
          (s.dailyGoal - (wrongSelected s pool).length) := by
  have hle : (wrongSelected s pool).length ≤ s.dailyGoal - 2 := by
    rw [wrongSelected_length s pool hdg]
    omega
  unfold newSelected
  rw [jsTake_nonneg _ (by omega)]
  congr 1
  omega

/-- Words with wrongCount ≥ 1 and words with wrongCount = 0 partition the
pool. -/
theorem pool_partition (pool : List Word) :
    (pool.filter (fun w => decide (1 ≤ w.wrongCount))).length
      + (pool.filter (fun w => w.wrongCount == 0)).length
      = pool.length := by
  have h := length_filter_partition (fun w : Word => w.wrongCount == 0) pool
  have h2 : pool.filter (fun w => !(w.wrongCount == 0))
      = pool.filter (fun w => decide (1 ≤ w.wrongCount)) := by
    apply List.filter_congr
    intro w hw
    cases hwc : w.wrongCount with
    | zero => simp [hwc]
    | succ k => simp [hwc]
  rw [h2] at h
  omega

/-- C1 (amended): for a non-wrong scope with duplicate-free ids,
dailyGoal ≥ 2, and either at least 2 new words in the pool or all wrong
words fitting in the dailyGoal - 2 wrong slots, the returned length is
min(pool size, dailyGoal). -/
theorem claim_c1_quota (s : Settings) (rand : Nat → Nat) (words : List Word)
    (cid : String) (pool : List Word)
    (hcid : cid ≠ "wrong") (hpool : pool = poolFor words cid)
    (hdg : 2 ≤ s.dailyGoal)
    (hids : (pool.map (fun w => w.id)).Nodup)
    (hside : 2 ≤ (pool.filter (fun w => w.wrongCount == 0)).length
        ∨ (pool.filter (fun w => decide (1 ≤ w.wrongCount))).length
            ≤ s.dailyGoal - 2) :
    (buildDailyWords s rand words cid).length = min pool.length s.dailyGoal := by
  subst hpool
  rw [buildDailyWords_not_wrong s rand words cid hcid,
    (shuffle_perm rand _).length_eq, List.length_append,
    newSelected_eq_take s _ hdg, List.length_take,
    newCandidates_eq_of_nodup s _ hids,
    (sortCreatedAsc_perm ((poolFor words cid).filter
      (fun w => w.wrongCount == 0))).length_eq,
    wrongSelected_length s _ hdg]
  have hpart := pool_partition (poolFor words cid)
  omega

/-- Counterexample to C1 as stated: with dailyGoal = 2 and a pool holding
a single wrong word, the pool is smaller than the goal yet the result is
empty instead of having the pool size, because the two slots reserved for
new words cannot be filled and wrong words never backfill them. -/
theorem claim_c1_counterexample :
    [wB].length < (⟨2, 3⟩ : Settings).dailyGoal
    ∧ (buildDailyWords ⟨2, 3⟩ (fun _ => 0) [wB] "all").length ≠ [wB].length := by
  decide

/-- Witness for C1 at a concrete store of two wrong and two new words. -/
theorem claim_c1_witness :
    (2 ≤ (⟨10, 3⟩ : Settings).dailyGoal
      ∧ ((poolFor [wA, wB, wC, wD] "all").map (fun w => w.id)).Nodup
      ∧ 2 ≤ ((poolFor [wA, wB, wC, wD] "all").filter
          (fun w => w.wrongCount == 0)).length)
    ∧ (buildDailyWords ⟨10, 3⟩ (fun _ => 0) [wA, wB, wC, wD] "all").length
        = min (poolFor [wA, wB, wC, wD] "all").length (⟨10, 3⟩ : Settings).dailyGoal :=
  ⟨⟨by decide, by decide, by decide⟩,
   claim_c1_quota ⟨10, 3⟩ (fun _ => 0) [wA, wB, wC, wD] "all"
     (poolFor [wA, wB, wC, wD] "all") (by decide) rfl (by decide) (by decide)
     (Or.inl (by decide))⟩

/-- C2 (amended): for a non-wrong scope and dailyGoal ≥ 2, the wrong-pool
part of the returned multiset is exactly the top
min(dailyGoal - 2, wrong-pool size) wrong words under the stable
descending wrongCount order (so ties keep original relative order, and
every selected word has wrongCount at least that of every unselected
wrong candidate); for dailyGoal < 2 the slice end is negative and JS
slice then keeps all but the last 2 - dailyGoal wrong candidates rather
than zero of them. -/
theorem claim_c2_wrong_bias (s : Settings) (rand : Nat → Nat) (words : List Word)
    (cid : String) (pool wp : List Word)
    (hcid : cid ≠ "wrong") (hpool : pool = poolFor words cid)
    (hwp : wp = pool.filter (fun w => decide (1 ≤ w.wrongCount)))
    (hdg : 2 ≤ s.dailyGoal) :
    List.Perm
      ((buildDailyWords s rand words cid).filter (fun w => decide (1 ≤ w.wrongCount)))
      (wrongSelected s pool)
    ∧ wrongSelected s pool = (sortWrongDesc wp).take (s.dailyGoal - 2)
    ∧ (wrongSelected s pool).length = min (s.dailyGoal - 2) wp.length
    ∧ List.Perm (sortWrongDesc wp) wp
    ∧ (sortWrongDesc wp).Pairwise (fun x y => y.wrongCount ≤ x.wrongCount)
    ∧ (∀ x ∈ (sortWrongDesc wp).take (s.dailyGoal - 2),
        ∀ y ∈ (sortWrongDesc wp).drop (s.dailyGoal - 2),
          y.wrongCount ≤ x.wrongCount)
    ∧ (∀ c, (sortWrongDesc wp).filter (fun w => w.wrongCount == c)
        = wp.filter (fun w => w.wrongCount == c)) := by
  subst hpool
  subst hwp
  have hfil : (wrongSelected s (poolFor words cid)
        ++ newSelected s (poolFor words cid)).filter
          (fun w => decide (1 ≤ w.wrongCount))
      = wrongSelected s (poolFor words cid) := by
    rw [List.filter_append]
    have h1 : (wrongSelected s (poolFor words cid)).filter
        (fun w => decide (1 ≤ w.wrongCount)) = wrongSelected s (poolFor words cid) :=
      List.filter_eq_self.mpr
        (fun a ha => decide_eq_true (wrongSelected_mem s _ a ha).2)
    have h2 : (newSelected s (poolFor words cid)).filter
        (fun w => decide (1 ≤ w.wrongCount)) = [] :=
      List.filter_eq_nil_iff.mpr (fun a ha => by
        have hz := (newSelected_mem s _ a ha).2.1
        simp [hz])
    rw [h1, h2, List.append_nil]
  refine ⟨?_, wrongSelected_eq_take s _ hdg, wrongSelected_length s _ hdg,
    sortWrongDesc_perm _, sortWrongDesc_pairwise _, ?_, sortWrongDesc_stable _⟩
  · have hp := (shuffle_perm rand (wrongSelected s (poolFor words cid)
        ++ newSelected s (poolFor words cid))).filter
          (fun w => decide (1 ≤ w.wrongCount))
    rw [hfil] at hp
    rw [buildDailyWords_not_wrong s rand words cid hcid]
    exact hp
  · exact pairwise_take_drop (sortWrongDesc_pairwise _) (s.dailyGoal - 2)

/-- Counterexample to C2 as stated: with dailyGoal = 1 the wrong-slot
budget is -1, yet the result still contains a wrong-pool word, because
JS slice(0, -1) keeps all but the last wrong candidate instead of none. -/
theorem claim_c2_counterexample :
    (⟨1, 3⟩ : Settings).dailyGoal < 2
    ∧ (buildDailyWords ⟨1, 3⟩ (fun _ => 0) [wA, wB] "all").filter
        (fun w => decide (1 ≤ w.wrongCount)) = [wA]
    ∧ (1 : Nat) ≤ wA.wrongCount := by
  decide

/-- Witness for C2 at a concrete store of two wrong and one new word. -/
theorem claim_c2_witness :
    ("all" ≠ "wrong" ∧ 2 ≤ (⟨10, 3⟩ : Settings).dailyGoal)
    ∧ List.Perm
        ((buildDailyWords ⟨10, 3⟩ (fun _ => 0) [wA, wB, wC] "all").filter
          (fun w => decide (1 ≤ w.wrongCount)))
        (wrongSelected ⟨10, 3⟩ (poolFor [wA, wB, wC] "all")) :=
  ⟨⟨by decide, by decide⟩,
   (claim_c2_wrong_bias ⟨10, 3⟩ (fun _ => 0) [wA, wB, wC] "all"
     (poolFor [wA, wB, wC] "all")
     ((poolFor [wA, wB, wC] "all").filter (fun w => decide (1 ≤ w.wrongCount)))
     (by decide) rfl rfl (by decide)).1⟩

/-- C7: for a non-wrong scope with duplicate-free ids, dailyGoal ≥ 2, no
more selected wrong words than dailyGoal - 2, and at least 2 new words in
the pool, the result contains at least 2 words with wrongCount = 0; the
new words included are exactly a take of the new candidates sorted by
ascending createdAt (oldest first). -/
theorem claim_c7_new_floor (s : Settings) (rand : Nat → Nat) (words : List Word)
    (cid : String) (pool : List Word)
    (hcid : cid ≠ "wrong") (hpool : pool = poolFor words cid)
    (hdg : 2 ≤ s.dailyGoal)
    (hids : (pool.map (fun w => w.id)).Nodup)
    (hsel : (wrongSelected s pool).length ≤ s.dailyGoal - 2)
    (hnew : 2 ≤ (pool.filter (fun w => w.wrongCount == 0)).length) :
    2 ≤ ((buildDailyWords s rand words cid).filter
          (fun w => w.wrongCount == 0)).length
    ∧ List.Perm
        ((buildDailyWords s rand words cid).filter (fun w => w.wrongCount == 0))
        (newSelected s pool)
    ∧ newSelected s pool
        = (newCandidates s pool).take
            (s.dailyGoal - (wrongSelected s pool).length)
    ∧ (newCandidates s pool).Pairwise (fun x y => x.createdAt ≤ y.createdAt) := by
  subst hpool
  have hfil : (wrongSelected s (poolFor words cid)
        ++ newSelected s (poolFor words cid)).filter (fun w => w.wrongCount == 0)
      = newSelected s (poolFor words cid) := by
    rw [List.filter_append]
    have h1 : (wrongSelected s (poolFor words cid)).filter
        (fun w => w.wrongCount == 0) = [] :=
      List.filter_eq_nil_iff.mpr (fun a ha => by
        have hz := (wrongSelected_mem s _ a ha).2
        simp
        omega)
    have h2 : (newSelected s (poolFor words cid)).filter
        (fun w => w.wrongCount == 0) = newSelected s (poolFor words cid) :=
      List.filter_eq_self.mpr (fun a ha => by
        have hz := (newSelected_mem s _ a ha).2.1
        simp [hz])
    rw [h1, h2, List.nil_append]
  have hperm : List.Perm
      ((buildDailyWords s rand words cid).filter (fun w => w.wrongCount == 0))
      (newSelected s (poolFor words cid)) := by
    have hp := (shuffle_perm rand (wrongSelected s (poolFor words cid)
        ++ newSelected s (poolFor words cid))).filter (fun w => w.wrongCount == 0)
    rw [hfil] at hp
    rw [buildDailyWords_not_wrong s rand words cid hcid]
    exact hp
  refine ⟨?_, hperm, newSelected_eq_take s _ hdg, ?_⟩
  · rw [hperm.length_eq, newSelected_eq_take s _ hdg, List.length_take,
      newCandidates_eq_of_nodup s _ hids,
      (sortCreatedAsc_perm ((poolFor words cid).filter
        (fun w => w.wrongCount == 0))).length_eq]
    omega
  · unfold newCandidates
    exact sortCreatedAsc_pairwise _

/-- Witness for C7 at a concrete store of one wrong and two new words. -/
theorem claim_c7_witness :
    (2 ≤ (⟨10, 3⟩ : Settings).dailyGoal
      ∧ (wrongSelected ⟨10, 3⟩ (poolFor [wA, wC, wD] "all")).length
          ≤ (⟨10, 3⟩ : Settings).dailyGoal - 2
      ∧ 2 ≤ ((poolFor [wA, wC, wD] "all").filter
          (fun w => w.wrongCount == 0)).length)
    ∧ 2 ≤ ((buildDailyWords ⟨10, 3⟩ (fun _ => 0) [wA, wC, wD] "all").filter
          (fun w => w.wrongCount == 0)).length :=
  ⟨⟨by decide, by decide, by decide⟩,
   (claim_c7_new_floor ⟨10, 3⟩ (fun _ => 0) [wA, wC, wD] "all"
     (poolFor [wA, wC, wD] "all") (by decide) rfl (by decide) (by decide)
     (by decide) (by decide)).1⟩

/-- C9: for a non-wrong scope with duplicate-free ids, the returned
sequence repeats no id and only contains members of the scope pool. -/
theorem claim_c9_members (s : Settings) (rand : Nat → Nat) (words : List Word)
    (cid : String) (pool : List Word)
    (hcid : cid ≠ "wrong") (hpool : pool = poolFor words cid)
    (hids : (pool.map (fun w => w.id)).Nodup) :
    ((buildDailyWords s rand words cid).map (fun w => w.id)).Nodup
    ∧ ∀ w ∈ buildDailyWords s rand words cid, w ∈ pool := by
  subst hpool
  have hbuild := buildDailyWords_not_wrong s rand words cid hcid
  constructor
  · rw [hbuild]
    have hperm := (shuffle_perm rand (wrongSelected s (poolFor words cid)
        ++ newSelected s (poolFor words cid))).map (fun w => w.id)
    rw [hperm.nodup_iff, List.map_append, List.nodup_append]
    refine ⟨?_, ?_, ?_⟩
    · have hsort : ((sortWrongDesc ((poolFor words cid).filter
          (fun w => decide (1 ≤ w.wrongCount)))).map (fun w => w.id)).Nodup := by
        rw [((sortWrongDesc_perm _).map (fun w => w.id)).nodup_iff]
        exact List.Nodup.sublist ((List.filter_sublist _).map _) hids
      exact List.Nodup.sublist ((jsTake_sublist _ _).map _) hsort
    · have hsort : ((newCandidates s (poolFor words cid)).map
          (fun w => w.id)).Nodup := by
        unfold newCandidates
        rw [((sortCreatedAsc_perm _).map (fun w => w.id)).nodup_iff]
        exact List.Nodup.sublist ((List.filter_sublist _).map _) hids
      exact List.Nodup.sublist ((jsTake_sublist _ _).map _) hsort
    · intro a ha hb
      rcases List.mem_map.mp hb with ⟨y, hy, hyid⟩
      have hfalse := (newSelected_mem s _ y hy).2.2
      have htrue : ((wrongSelected s (poolFor words cid)).map
          (fun v => v.id)).contains y.id = true := by
        apply List.elem_iff.mpr
        rw [hyid]
        exact ha
      rw [hfalse] at htrue
      exact Bool.noConfusion htrue
  · intro w hw
    rw [hbuild] at hw
    have h1 := (shuffle_perm rand _).mem_iff.mp hw
    rcases List.mem_append.mp h1 with h | h
    · exact (wrongSelected_mem s _ w h).1
    · exact (newSelected_mem s _ w h).1

/-- Witness for C9 at a concrete category-scoped store. -/
theorem claim_c9_witness :
    ("c1" ≠ "wrong" ∧ ((poolFor [wA, wB, wC, wD] "c1").map (fun w => w.id)).Nodup)
    ∧ ∀ w ∈ buildDailyWords ⟨10, 3⟩ (fun _ => 1) [wA, wB, wC, wD] "c1",
        w ∈ poolFor [wA, wB, wC, wD] "c1" :=
  ⟨⟨by decide, by decide⟩,
   (claim_c9_members ⟨10, 3⟩ (fun _ => 1) [wA, wB, wC, wD] "c1"
     (poolFor [wA, wB, wC, wD] "c1") (by decide) rfl (by decide)).2⟩

end Vocab
